import Mathlib

/-!
# Verification of the citibike aggregation core (citibike_postgres.py)

This file shallowly embeds the data-processing core of `citibike_postgres.py`:

* `extract_from_trip_fact` — scans the raw trip table, counting trips per
  ordered (start station id, end station id) pair while building a
  first-name-wins id→name table, then re-keys the counts by station names;
* `reduceByKey_most_used_routes` — reconciles the extracted mapping against
  the persisted `most_used_routes` table;
* `modify_most_used_routes` — partitions the reconciled mapping into the
  insert and update parameter arrays that the script hands to the batched
  write primitive.

Python dictionaries are modelled as association lists in insertion order:
lookup returns the value at the (unique) matching key, insertion overwrites
an existing key in place and otherwise appends at the end, exactly the
observable behaviour of a Python `dict`.  Relational tables are modelled as
the list of rows a forward-only cursor would yield.
-/

/-- Lookup in the association-list model of a Python `dict`. -/
def dfind {α β : Type} [DecidableEq α] (d : List (α × β)) (k : α) : Option β :=
  match d with
  | [] => none
  | (k0, v0) :: rest => if k0 = k then some v0 else dfind rest k

/-- Assignment `d[k] = v` in the association-list model of a Python `dict`:
overwrite in place if the key is present, otherwise append. -/
def dinsert {α β : Type} [DecidableEq α] (d : List (α × β)) (k : α) (v : β) :
    List (α × β) :=
  match d with
  | [] => [(k, v)]
  | (k0, v0) :: rest => if k0 = k then (k, v) :: rest else (k0, v0) :: dinsert rest k v

/-- The keys of the dictionary, in insertion order. -/
def dkeys {α β : Type} (d : List (α × β)) : List α :=
  d.map Prod.fst

/-- One row of the raw trip table (`trip_fact` / `trip_fact_stg`), restricted
to the four columns the core selects; all columns are VARCHAR, so ids and
names are both strings. -/
structure TripRow where
  start_station_id : String
  start_station_name : String
  end_station_id : String
  end_station_name : String
deriving DecidableEq

/-- The value stored in the `total_names` dictionary:
`{'route_id': ..., 'num_trips': ...}`. -/
structure RouteVal where
  route_id : Option Nat
  num_trips : Nat
deriving DecidableEq

/-- One row of the persisted `most_used_routes` table. -/
structure MostUsedRow where
  route_id : Nat
  start_station_name : String
  end_station_name : String
  num_trips : Nat
deriving DecidableEq

/-- The (start station name, end station name) key of a persisted row. -/
def rowKey (r : MostUsedRow) : String × String :=
  (r.start_station_name, r.end_station_name)

/-- The `(start station id, end station id)` key the scan counts by. -/
def idPair (row : TripRow) : String × String :=
  (row.start_station_id, row.end_station_id)

/-- The `if key not in total: total[key] = 1 else: total[key] += 1` block of
the scan. -/
def bumpCount (total : List ((String × String) × Nat)) (p : String × String) :
    List ((String × String) × Nat) :=
  match dfind total p with
  | none => dinsert total p 1
  | some n => dinsert total p (n + 1)

/-- The `if id not in names: names[id] = name` block of the scan (first name
wins). -/
def recordName (names : List (String × String)) (sid nm : String) :
    List (String × String) :=
  match dfind names sid with
  | none => dinsert names sid nm
  | some _ => names

/-- One iteration of the `while row:` scan in `extract_from_trip_fact`:
bump the id-pair counter, then record the start and end station names for
their ids unless a name is already recorded. -/
def scanStep (st : List ((String × String) × Nat) × List (String × String))
    (row : TripRow) :
    List ((String × String) × Nat) × List (String × String) :=
  (bumpCount st.1 (idPair row),
   recordName (recordName st.2 row.start_station_id row.start_station_name)
     row.end_station_id row.end_station_name)

/-- The `total` dictionary after the scan: id-pair → number of trips. -/
def scanTotal (rows : List TripRow) : List ((String × String) × Nat) :=
  (rows.foldl scanStep ([], [])).1

/-- The `names` dictionary after the scan: station id → station name. -/
def scanNames (rows : List TripRow) : List (String × String) :=
  (rows.foldl scanStep ([], [])).2

/-- One iteration of the `for key in total:` re-keying loop.  The Python code
indexes `names[key[START_STATION]]` and `names[key[END_STATION]]`, which
raises `KeyError` when an id is missing, so the step is modelled in `Option`:
`none` is the `KeyError` case. -/
def rekeyStep (names : List (String × String))
    (acc : List ((String × String) × RouteVal)) (entry : (String × String) × Nat) :
    Option (List ((String × String) × RouteVal)) :=
  match dfind names entry.1.1, dfind names entry.1.2 with
  | some sn, some en =>
    match dfind acc (sn, en) with
    | none => some (dinsert acc (sn, en) ⟨none, entry.2⟩)
    | some v => some (dinsert acc (sn, en) ⟨v.route_id, v.num_trips + entry.2⟩)
  | _, _ => none

/-- `extract_from_trip_fact`: scan the raw trip rows, then re-key the id-pair
counts by station names, initialising every `route_id` to `None`. -/
def extract_from_trip_fact (rows : List TripRow) :
    Option (List ((String × String) × RouteVal)) :=
  (scanTotal rows).foldlM (rekeyStep (scanNames rows)) []

/-- One iteration of the `while row:` loop of `reduceByKey_most_used_routes`:
if the persisted row's name pair is a key of `total_names`, overwrite that
entry's `route_id` with the row's and add the row's `num_trips` onto the
entry's. -/
def reduceStep (total_names : List ((String × String) × RouteVal))
    (r : MostUsedRow) : List ((String × String) × RouteVal) :=
  match dfind total_names (rowKey r) with
  | none => total_names
  | some v => dinsert total_names (rowKey r) ⟨some r.route_id, v.num_trips + r.num_trips⟩

/-- `reduceByKey_most_used_routes`: fold the reconciliation step over the
persisted `most_used_routes` rows in cursor order. -/
def reduceByKey_most_used_routes (total_names : List ((String × String) × RouteVal))
    (persisted : List MostUsedRow) : List ((String × String) × RouteVal) :=
  persisted.foldl reduceStep total_names

/-- The two parameter arrays `modify_most_used_routes` hands to the batched
write primitive: `insert_array` rows are `(start_station_name,
end_station_name, num_trips)` tuples for the INSERT statement, and
`update_array` rows are `(num_trips, route_id)` tuples for the
`UPDATE ... WHERE route_id = %s` statement.  There is no delete statement. -/
structure MutationPlan where
  insert_array : List (String × String × Nat)
  update_array : List (Nat × Nat)
deriving DecidableEq

/-- One iteration of the `for key in total_names:` loop of
`modify_most_used_routes` when `only_insert` is false: append the key either
to `insert_array` (its `route_id` is `None`) or to `update_array`. -/
def modifyStep (plan : MutationPlan) (e : (String × String) × RouteVal) :
    MutationPlan :=
  match e.2.route_id with
  | none => ⟨plan.insert_array ++ [(e.1.1, e.1.2, e.2.num_trips)], plan.update_array⟩
  | some rid => ⟨plan.insert_array, plan.update_array ++ [(e.2.num_trips, rid)]⟩

/-- `modify_most_used_routes`: in insert-only mode every key yields an insert
tuple (the list comprehension); otherwise the loop appends each key either to
`insert_array` (when its `route_id` is `None`) or to `update_array`. -/
def modify_most_used_routes (total_names : List ((String × String) × RouteVal))
    (only_insert : Bool) : MutationPlan :=
  if only_insert then
    ⟨total_names.map (fun e => (e.1.1, e.1.2, e.2.num_trips)), []⟩
  else
    total_names.foldl modifyStep ⟨[], []⟩

/-! ## Dictionary lemmas -/

theorem dfind_dinsert_self {α β : Type} [DecidableEq α] (d : List (α × β)) (k : α)
    (v : β) : dfind (dinsert d k v) k = some v := by
  induction d with
  | nil => simp [dfind, dinsert]
  | cons e rest ih =>
    obtain ⟨k0, v0⟩ := e
    by_cases h : k0 = k <;> simp [dfind, dinsert, h, ih]

theorem dfind_dinsert_ne {α β : Type} [DecidableEq α] (d : List (α × β)) {k k' : α}
    (v : β) (h : k' ≠ k) : dfind (dinsert d k v) k' = dfind d k' := by
  have hk : ¬ k = k' := fun h0 => h h0.symm
  induction d with
  | nil => simp [dfind, dinsert, hk]
  | cons e rest ih =>
    obtain ⟨k0, v0⟩ := e
    by_cases h0 : k0 = k
    · subst h0
      simp [dfind, dinsert, hk]
    · simp [dfind, dinsert, h0, ih]

theorem dfind_eq_none_iff {α β : Type} [DecidableEq α] (d : List (α × β)) (k : α) :
    dfind d k = none ↔ k ∉ dkeys d := by
  induction d with
  | nil => simp [dfind, dkeys]
  | cons e rest ih =>
    obtain ⟨k0, v0⟩ := e
    by_cases h : k0 = k
    · simp [dfind, dkeys, h]
    · simp only [dkeys] at ih ⊢
      simp [dfind, h, ih]
      tauto

theorem mem_of_dfind {α β : Type} [DecidableEq α] {d : List (α × β)} {k : α} {v : β}
    (h : dfind d k = some v) : (k, v) ∈ d := by
  induction d with
  | nil => simp [dfind] at h
  | cons e rest ih =>
    obtain ⟨k0, v0⟩ := e
    by_cases h0 : k0 = k
    · subst h0
      simp [dfind] at h
      simp [h]
    · simp [dfind, h0] at h
      simp [ih h]

theorem dfind_of_mem_nodup {α β : Type} [DecidableEq α] {d : List (α × β)} {k : α}
    {v : β} (hnd : (dkeys d).Nodup) (h : (k, v) ∈ d) : dfind d k = some v := by
  induction d with
  | nil => simp at h
  | cons e rest ih =>
    obtain ⟨k0, v0⟩ := e
    rcases List.mem_cons.mp h with h1 | h1
    · rw [Prod.mk.injEq] at h1
      obtain ⟨h2, h3⟩ := h1
      subst h2
      subst h3
      simp [dfind]
    · have hmem : k ∈ dkeys rest := by
        simpa [dkeys] using List.mem_map_of_mem Prod.fst h1
      have hnd1 : k0 ∉ dkeys rest ∧ (dkeys rest).Nodup := by
        simpa [dkeys] using hnd
      have hk : ¬ k0 = k := by
        intro h2
        subst h2
        exact hnd1.1 hmem
      simp [dfind, hk, ih hnd1.2 h1]

theorem dkeys_dinsert_some {α β : Type} [DecidableEq α] {d : List (α × β)} {k : α}
    {w : β} (v : β) (h : dfind d k = some w) : dkeys (dinsert d k v) = dkeys d := by
  induction d with
  | nil => simp [dfind] at h
  | cons e rest ih =>
    obtain ⟨k0, v0⟩ := e
    by_cases h0 : k0 = k
    · subst h0
      simp [dinsert, dkeys]
    · simp [dfind, h0] at h
      simp [dinsert, dkeys, h0] at ih ⊢
      exact ih h

theorem dkeys_dinsert_none {α β : Type} [DecidableEq α] {d : List (α × β)} {k : α}
    (v : β) (h : dfind d k = none) : dkeys (dinsert d k v) = dkeys d ++ [k] := by
  induction d with
  | nil => simp [dinsert, dkeys]
  | cons e rest ih =>
    obtain ⟨k0, v0⟩ := e
    by_cases h0 : k0 = k
    · simp [dfind, h0] at h
    · simp [dfind, h0] at h
      simp [dinsert, dkeys, h0] at ih ⊢
      exact ih h

theorem nodup_dkeys_dinsert {α β : Type} [DecidableEq α] {d : List (α × β)} {k : α}
    (v : β) (h : (dkeys d).Nodup) : (dkeys (dinsert d k v)).Nodup := by
  cases h0 : dfind d k with
  | none =>
    rw [dkeys_dinsert_none v h0]
    have hk : k ∉ dkeys d := (dfind_eq_none_iff d k).mp h0
    rw [List.nodup_append]
    refine ⟨h, List.nodup_singleton k, ?_⟩
    intro a ha hb
    rw [List.mem_singleton] at hb
    subst hb
    exact hk ha
  | some w =>
    rw [dkeys_dinsert_some v h0]
    exact h

theorem mem_dinsert {α β : Type} [DecidableEq α] {d : List (α × β)} {k : α} {v : β}
    {x : α × β} (h : x ∈ dinsert d k v) : x ∈ d ∨ x = (k, v) := by
  induction d with
  | nil => simpa [dinsert] using h
  | cons e rest ih =>
    obtain ⟨k0, v0⟩ := e
    by_cases h0 : k0 = k
    · subst h0
      rcases List.mem_cons.mp (by simpa [dinsert] using h) with h1 | h1
      · exact Or.inr h1
      · exact Or.inl (List.mem_cons_of_mem _ h1)
    · rcases List.mem_cons.mp (by simpa [dinsert, h0] using h) with h1 | h1
      · exact Or.inl (by simp [h1])
      · rcases ih h1 with h2 | h2
        · exact Or.inl (List.mem_cons_of_mem _ h2)
        · exact Or.inr h2

theorem mem_dkeys_dinsert {α β : Type} [DecidableEq α] {d : List (α × β)} {k k' : α}
    (v : β) (h : k' ∈ dkeys d) : k' ∈ dkeys (dinsert d k v) := by
  cases h0 : dfind d k with
  | none => simp [dkeys_dinsert_none v h0, h]
  | some w => simp [dkeys_dinsert_some v h0, h]

/-- Sum of `f` over the values of a dictionary. -/
def dsum {α β : Type} (f : β → Nat) (d : List (α × β)) : Nat :=
  (d.map (fun e => f e.2)).sum

theorem dsum_dinsert_none {α β : Type} [DecidableEq α] {d : List (α × β)} {k : α}
    (f : β → Nat) (v : β) (h : dfind d k = none) :
    dsum f (dinsert d k v) = dsum f d + f v := by
  induction d with
  | nil => simp [dsum, dinsert]
  | cons e rest ih =>
    obtain ⟨k0, v0⟩ := e
    by_cases h0 : k0 = k
    · simp [dfind, h0] at h
    · simp [dfind, h0] at h
      simp [dsum, dinsert, h0] at ih ⊢
      have := ih h
      omega

theorem dsum_dinsert_some {α β : Type} [DecidableEq α] {d : List (α × β)} {k : α}
    {w : β} (f : β → Nat) (v : β) (h : dfind d k = some w) :
    dsum f (dinsert d k v) + f w = dsum f d + f v := by
  induction d with
  | nil => simp [dfind] at h
  | cons e rest ih =>
    obtain ⟨k0, v0⟩ := e
    by_cases h0 : k0 = k
    · subst h0
      simp [dfind] at h
      subst h
      simp [dsum, dinsert]
      omega
    · simp [dfind, h0] at h
      simp [dsum, dinsert, h0] at ih ⊢
      have := ih h
      omega

/-! ## Scan lemmas -/

theorem scanStep_fst (st : List ((String × String) × Nat) × List (String × String))
    (row : TripRow) : (scanStep st row).1 = bumpCount st.1 (idPair row) := rfl

theorem scanStep_snd (st : List ((String × String) × Nat) × List (String × String))
    (row : TripRow) : (scanStep st row).2 =
      recordName (recordName st.2 row.start_station_id row.start_station_name)
        row.end_station_id row.end_station_name := rfl

theorem dfind_bumpCount_self (total : List ((String × String) × Nat))
    (p : String × String) :
    dfind (bumpCount total p) p = some ((dfind total p).getD 0 + 1) := by
  cases h : dfind total p with
  | none => simp only [bumpCount, h, Option.getD_none]; exact dfind_dinsert_self _ _ _
  | some n => simp only [bumpCount, h, Option.getD_some]; exact dfind_dinsert_self _ _ _

theorem dfind_bumpCount_ne (total : List ((String × String) × Nat))
    {p q : String × String} (h : q ≠ p) :
    dfind (bumpCount total p) q = dfind total q := by
  cases h0 : dfind total p with
  | none => simp only [bumpCount, h0]; exact dfind_dinsert_ne total 1 h
  | some n => simp only [bumpCount, h0]; exact dfind_dinsert_ne total (n + 1) h

theorem nodup_dkeys_bumpCount (total : List ((String × String) × Nat))
    (p : String × String) (h : (dkeys total).Nodup) :
    (dkeys (bumpCount total p)).Nodup := by
  cases h0 : dfind total p with
  | none => simp only [bumpCount, h0]; exact nodup_dkeys_dinsert _ h
  | some n => simp only [bumpCount, h0]; exact nodup_dkeys_dinsert _ h

theorem mem_bumpCount (total : List ((String × String) × Nat)) (p : String × String)
    {e : (String × String) × Nat} (h : e ∈ bumpCount total p) : e ∈ total ∨ e.1 = p := by
  cases h0 : dfind total p with
  | none =>
    rw [bumpCount, h0] at h
    rcases mem_dinsert h with h1 | h1
    · exact Or.inl h1
    · exact Or.inr (by rw [h1])
  | some n =>
    rw [bumpCount, h0] at h
    rcases mem_dinsert h with h1 | h1
    · exact Or.inl h1
    · exact Or.inr (by rw [h1])

theorem dfind_recordName_of_some {names : List (String × String)} {k v : String}
    (sid nm : String) (h : dfind names k = some v) :
    dfind (recordName names sid nm) k = some v := by
  cases h0 : dfind names sid with
  | none =>
    have hne : k ≠ sid := by
      intro h1
      subst h1
      rw [h] at h0
      cases h0
    rw [recordName, h0, dfind_dinsert_ne _ _ hne, h]
  | some w => rw [recordName, h0]; exact h

theorem dfind_recordName_of_none {names : List (String × String)} {k : String}
    (sid nm : String) (h : dfind names k = none) :
    dfind (recordName names sid nm) k = if sid = k then some nm else none := by
  cases h0 : dfind names sid with
  | none =>
    by_cases h1 : sid = k
    · subst h1
      rw [recordName, h0, if_pos rfl]
      exact dfind_dinsert_self _ _ _
    · have hne : k ≠ sid := fun h2 => h1 h2.symm
      rw [recordName, h0, if_neg h1, dfind_dinsert_ne _ _ hne, h]
  | some w =>
    have h1 : ¬ sid = k := by
      intro h2
      subst h2
      rw [h] at h0
      cases h0
    rw [recordName, h0, if_neg h1]
    exact h

theorem isSome_dfind_recordName_self (names : List (String × String)) (sid nm : String) :
    (dfind (recordName names sid nm) sid).isSome := by
  cases h0 : dfind names sid with
  | none => rw [recordName, h0, dfind_dinsert_self]; rfl
  | some w => rw [recordName, h0, h0]; rfl

theorem isSome_dfind_recordName (names : List (String × String)) (sid nm k : String)
    (h : (dfind names k).isSome) : (dfind (recordName names sid nm) k).isSome := by
  obtain ⟨v, hv⟩ := Option.isSome_iff_exists.mp h
  rw [dfind_recordName_of_some _ _ hv]
  rfl

/-- After the scan, the count recorded for an id pair `p` is the initial count
plus the number of scanned rows whose id pair is `p`. -/
theorem scan_total_count (rows : List TripRow) :
    ∀ (st : List ((String × String) × Nat) × List (String × String))
      (p : String × String),
      (dfind ((rows.foldl scanStep st).1) p).getD 0 =
        (dfind st.1 p).getD 0 + rows.countP (fun r => decide (idPair r = p)) := by
  induction rows with
  | nil => intro st p; simp
  | cons r rest ih =>
    intro st p
    rw [List.foldl_cons, ih, List.countP_cons, scanStep_fst]
    by_cases h : idPair r = p
    · subst h
      rw [dfind_bumpCount_self]
      simp
      omega
    · have h1 : p ≠ idPair r := fun h2 => h h2.symm
      rw [dfind_bumpCount_ne _ h1]
      simp [h]

theorem scan_total_nodup (rows : List TripRow) :
    ∀ st, (dkeys st.1).Nodup → (dkeys ((rows.foldl scanStep st).1)).Nodup := by
  induction rows with
  | nil => intro st h; exact h
  | cons r rest ih =>
    intro st h
    rw [List.foldl_cons]
    exact ih _ (by rw [scanStep_fst]; exact nodup_dkeys_bumpCount _ _ h)

/-- A name already recorded before the scan survives the scan unchanged. -/
theorem scan_names_of_some (rows : List TripRow) :
    ∀ (st : List ((String × String) × Nat) × List (String × String)) {sid v : String},
      dfind st.2 sid = some v → dfind ((rows.foldl scanStep st).2) sid = some v := by
  induction rows with
  | nil => intro st sid v h; exact h
  | cons r rest ih =>
    intro st sid v h
    rw [List.foldl_cons]
    refine ih _ ?_
    rw [scanStep_snd]
    exact dfind_recordName_of_some _ _ (dfind_recordName_of_some _ _ h)

/-- The name the spec assigns to a station id: the name carried by the first
row in scan order that mentions the id (a row's start column is examined
before its end column).  This definition follows the spec's words — "the
first name observed for a given id is retained for the remainder of the
scan" — and is compared against the id→name table the scan actually builds. -/
def firstNameSpec : List TripRow → String → Option String
  | [], _ => none
  | row :: rest, sid =>
    if row.start_station_id = sid then some row.start_station_name
    else if row.end_station_id = sid then some row.end_station_name
    else firstNameSpec rest sid

/-- A station id with no recorded name before the scan ends up mapped to the
first name the scanned rows carry for it. -/
theorem scan_names_of_none (rows : List TripRow) :
    ∀ (st : List ((String × String) × Nat) × List (String × String)) {sid : String},
      dfind st.2 sid = none →
      dfind ((rows.foldl scanStep st).2) sid = firstNameSpec rows sid := by
  induction rows with
  | nil => intro st sid h; simpa [firstNameSpec] using h
  | cons r rest ih =>
    intro st sid h
    rw [List.foldl_cons]
    by_cases hs : r.start_station_id = sid
    · have h1 : dfind (recordName st.2 r.start_station_id r.start_station_name) sid =
          some r.start_station_name := by
        rw [dfind_recordName_of_none _ _ h, if_pos hs]
      have h2 : dfind ((scanStep st r).2) sid = some r.start_station_name := by
        rw [scanStep_snd]
        exact dfind_recordName_of_some _ _ h1
      rw [scan_names_of_some rest _ h2]
      simp [firstNameSpec, hs]
    · have h1 : dfind (recordName st.2 r.start_station_id r.start_station_name) sid =
          none := by
        rw [dfind_recordName_of_none _ _ h, if_neg hs]
      by_cases he : r.end_station_id = sid
      · have h2 : dfind ((scanStep st r).2) sid = some r.end_station_name := by
          rw [scanStep_snd, dfind_recordName_of_none _ _ h1, if_pos he]
        rw [scan_names_of_some rest _ h2]
        simp [firstNameSpec, hs, he]
      · have h2 : dfind ((scanStep st r).2) sid = none := by
          rw [scanStep_snd, dfind_recordName_of_none _ _ h1, if_neg he]
        rw [ih _ h2]
        simp [firstNameSpec, hs, he]

/-- Every id that occurs in a key of the scanned count table has a recorded
name, provided that already held before the scan. -/
theorem scan_covered (rows : List TripRow) :
    ∀ (st : List ((String × String) × Nat) × List (String × String)),
      (∀ e ∈ st.1, (dfind st.2 e.1.1).isSome ∧ (dfind st.2 e.1.2).isSome) →
      ∀ e ∈ (rows.foldl scanStep st).1,
        (dfind ((rows.foldl scanStep st).2) e.1.1).isSome ∧
          (dfind ((rows.foldl scanStep st).2) e.1.2).isSome := by
  induction rows with
  | nil => intro st h; exact h
  | cons r rest ih =>
    intro st h
    rw [List.foldl_cons]
    refine ih _ ?_
    intro e he
    rw [scanStep_fst] at he
    rw [scanStep_snd]
    rcases mem_bumpCount _ _ he with h1 | h1
    · obtain ⟨ha, hb⟩ := h e h1
      exact ⟨isSome_dfind_recordName _ _ _ _ (isSome_dfind_recordName _ _ _ _ ha),
        isSome_dfind_recordName _ _ _ _ (isSome_dfind_recordName _ _ _ _ hb)⟩
    · have hs : e.1.1 = r.start_station_id := by rw [h1]; rfl
      have hend : e.1.2 = r.end_station_id := by rw [h1]; rfl
      constructor
      · rw [hs]
        exact isSome_dfind_recordName _ _ _ _ (isSome_dfind_recordName_self _ _ _)
      · rw [hend]
        exact isSome_dfind_recordName_self _ _ _

/-! ## Re-keying lemmas -/

/-- Resolve an id pair through the id→name table, as the re-keying loop does
with `names[key[START_STATION]]` and `names[key[END_STATION]]`; `none` when
either id has no recorded name. -/
def resolvePair (names : List (String × String)) (p : String × String) :
    Option (String × String) :=
  match dfind names p.1, dfind names p.2 with
  | some sn, some en => some (sn, en)
  | _, _ => none

/-- The trip count a mapping stores for a name pair, zero for absent keys. -/
def lookupTrips (d : List ((String × String) × RouteVal)) (k : String × String) :
    Nat :=
  match dfind d k with
  | none => 0
  | some v => v.num_trips

/-- The number of raw trip rows whose station ids resolve (through the
first-name-wins table built by the scan) to the name pair `k`. -/
def tripsTo (rows : List TripRow) (k : String × String) : Nat :=
  rows.countP (fun r => decide (resolvePair (scanNames rows) (idPair r) = some k))


theorem lookupTrips_of_none {d : List ((String × String) × RouteVal)}
    {k : String × String} (h : dfind d k = none) : lookupTrips d k = 0 := by
  unfold lookupTrips
  rw [h]

theorem lookupTrips_of_some {d : List ((String × String) × RouteVal)}
    {k : String × String} {v : RouteVal} (h : dfind d k = some v) :
    lookupTrips d k = v.num_trips := by
  unfold lookupTrips
  rw [h]

theorem lookupTrips_dinsert_self (d : List ((String × String) × RouteVal))
    (k : String × String) (v : RouteVal) :
    lookupTrips (dinsert d k v) k = v.num_trips := by
  unfold lookupTrips
  rw [dfind_dinsert_self]

theorem lookupTrips_dinsert_ne (d : List ((String × String) × RouteVal))
    {k k0 : String × String} (v : RouteVal) (h : k ≠ k0) :
    lookupTrips (dinsert d k0 v) k = lookupTrips d k := by
  unfold lookupTrips
  rw [dfind_dinsert_ne _ _ h]

theorem rekeyStep_some_inv {names : List (String × String)}
    {acc : List ((String × String) × RouteVal)} {entry : (String × String) × Nat}
    {acc1 : List ((String × String) × RouteVal)}
    (h : rekeyStep names acc entry = some acc1) :
    ∃ sn en, resolvePair names entry.1 = some (sn, en) ∧
      ((dfind acc (sn, en) = none ∧ acc1 = dinsert acc (sn, en) ⟨none, entry.2⟩) ∨
       (∃ v, dfind acc (sn, en) = some v ∧
         acc1 = dinsert acc (sn, en) ⟨v.route_id, v.num_trips + entry.2⟩)) := by
  unfold rekeyStep at h
  split at h
  next sn en h1 h2 =>
    refine ⟨sn, en, by simp [resolvePair, h1, h2], ?_⟩
    split at h
    next h3 => exact Or.inl ⟨h3, (Option.some_inj.mp h).symm⟩
    next v h3 => exact Or.inr ⟨v, h3, (Option.some_inj.mp h).symm⟩
  next h1 h2 => cases h

theorem rekeyStep_isSome {names : List (String × String)}
    (acc : List ((String × String) × RouteVal)) {entry : (String × String) × Nat}
    (h : (resolvePair names entry.1).isSome) : (rekeyStep names acc entry).isSome := by
  cases h1 : dfind names entry.1.1 with
  | none => simp [resolvePair, h1] at h
  | some sn =>
    cases h2 : dfind names entry.1.2 with
    | none => simp [resolvePair, h1, h2] at h
    | some en =>
      rw [rekeyStep]
      cases h3 : dfind acc (sn, en) with
      | none => simp [h1, h2, h3]
      | some v => simp [h1, h2, h3]

theorem rekeyStep_lookupTrips {names : List (String × String)}
    {acc acc1 : List ((String × String) × RouteVal)} {entry : (String × String) × Nat}
    (h : rekeyStep names acc entry = some acc1) (k : String × String) :
    lookupTrips acc1 k = lookupTrips acc k +
      (if resolvePair names entry.1 = some k then entry.2 else 0) := by
  obtain ⟨sn, en, hres, hcase⟩ := rekeyStep_some_inv h
  by_cases hk : (sn, en) = k
  · subst hk
    rw [hres, if_pos rfl]
    rcases hcase with ⟨h0, h1⟩ | ⟨v, h0, h1⟩
    · rw [h1, lookupTrips_dinsert_self, lookupTrips_of_none h0]
      simp
    · rw [h1, lookupTrips_dinsert_self, lookupTrips_of_some h0]
  · have hne : ¬ resolvePair names entry.1 = some k := by
      rw [hres]
      intro h1
      exact hk (Option.some_inj.mp h1)
    rw [if_neg hne]
    have hk2 : k ≠ (sn, en) := fun h1 => hk h1.symm
    rcases hcase with ⟨h0, h1⟩ | ⟨v, h0, h1⟩
    · rw [h1, lookupTrips_dinsert_ne _ _ hk2]
      omega
    · rw [h1, lookupTrips_dinsert_ne _ _ hk2]
      omega

theorem rekeyStep_allNone {names : List (String × String)}
    {acc acc1 : List ((String × String) × RouteVal)} {entry : (String × String) × Nat}
    (h : rekeyStep names acc entry = some acc1)
    (hall : ∀ e ∈ acc, e.2.route_id = none) : ∀ e ∈ acc1, e.2.route_id = none := by
  obtain ⟨sn, en, _, hcase⟩ := rekeyStep_some_inv h
  rcases hcase with ⟨h0, h1⟩ | ⟨v, h0, h1⟩
  · intro e he
    rcases mem_dinsert (h1 ▸ he) with h2 | h2
    · exact hall e h2
    · rw [h2]
  · intro e he
    rcases mem_dinsert (h1 ▸ he) with h2 | h2
    · exact hall e h2
    · have h4 : ((sn, en), v) ∈ acc := mem_of_dfind h0
      have h5 := hall _ h4
      rw [h2]
      exact h5

theorem rekeyStep_nodup {names : List (String × String)}
    {acc acc1 : List ((String × String) × RouteVal)} {entry : (String × String) × Nat}
    (h : rekeyStep names acc entry = some acc1)
    (hnd : (dkeys acc).Nodup) : (dkeys acc1).Nodup := by
  obtain ⟨sn, en, _, hcase⟩ := rekeyStep_some_inv h
  rcases hcase with ⟨h0, h1⟩ | ⟨v, h0, h1⟩
  · rw [h1]
    exact nodup_dkeys_dinsert _ hnd
  · rw [h1]
    exact nodup_dkeys_dinsert _ hnd

theorem rekeyStep_sum {names : List (String × String)}
    {acc acc1 : List ((String × String) × RouteVal)} {entry : (String × String) × Nat}
    (h : rekeyStep names acc entry = some acc1) :
    dsum RouteVal.num_trips acc1 = dsum RouteVal.num_trips acc + entry.2 := by
  obtain ⟨sn, en, _, hcase⟩ := rekeyStep_some_inv h
  rcases hcase with ⟨h0, h1⟩ | ⟨v, h0, h1⟩
  · rw [h1, dsum_dinsert_none _ _ h0]
  · rw [h1]
    have h2 := dsum_dinsert_some RouteVal.num_trips
      (⟨v.route_id, v.num_trips + entry.2⟩ : RouteVal) h0
    simp only [RouteVal.num_trips] at h2 ⊢
    omega

theorem option_some_bind {α β : Type} (a : α) (f : α → Option β) :
    (some a >>= f) = f a := rfl

/-- Trip-count bookkeeping across the whole re-keying loop: each processed
id-pair entry contributes its count to the name pair it resolves to. -/
theorem rekey_fold_lookupTrips {names : List (String × String)}
    (total : List ((String × String) × Nat)) :
    ∀ (acc d : List ((String × String) × RouteVal)),
      total.foldlM (rekeyStep names) acc = some d →
      ∀ k, lookupTrips d k = lookupTrips acc k +
        (total.map (fun e => if resolvePair names e.1 = some k then e.2 else 0)).sum := by
  induction total with
  | nil =>
    intro acc d h k
    simp only [List.foldlM_nil] at h
    obtain rfl : acc = d := by simpa using h
    simp
  | cons e rest ih =>
    intro acc d h k
    rw [List.foldlM_cons] at h
    cases h1 : rekeyStep names acc e with
    | none => simp [h1] at h
    | some acc1 =>
      rw [h1, option_some_bind] at h
      rw [ih acc1 d h k, rekeyStep_lookupTrips h1 k, List.map_cons, List.sum_cons]
      omega

theorem rekey_fold_allNone {names : List (String × String)}
    (total : List ((String × String) × Nat)) :
    ∀ (acc d : List ((String × String) × RouteVal)),
      total.foldlM (rekeyStep names) acc = some d →
      (∀ e ∈ acc, e.2.route_id = none) → ∀ e ∈ d, e.2.route_id = none := by
  induction total with
  | nil =>
    intro acc d h hall
    simp only [List.foldlM_nil] at h
    obtain rfl : acc = d := by simpa using h
    exact hall
  | cons e rest ih =>
    intro acc d h hall
    rw [List.foldlM_cons] at h
    cases h1 : rekeyStep names acc e with
    | none => simp [h1] at h
    | some acc1 =>
      rw [h1, option_some_bind] at h
      exact ih acc1 d h (rekeyStep_allNone h1 hall)

theorem rekey_fold_nodup {names : List (String × String)}
    (total : List ((String × String) × Nat)) :
    ∀ (acc d : List ((String × String) × RouteVal)),
      total.foldlM (rekeyStep names) acc = some d →
      (dkeys acc).Nodup → (dkeys d).Nodup := by
  induction total with
  | nil =>
    intro acc d h hnd
    simp only [List.foldlM_nil] at h
    obtain rfl : acc = d := by simpa using h
    exact hnd
  | cons e rest ih =>
    intro acc d h hnd
    rw [List.foldlM_cons] at h
    cases h1 : rekeyStep names acc e with
    | none => simp [h1] at h
    | some acc1 =>
      rw [h1, option_some_bind] at h
      exact ih acc1 d h (rekeyStep_nodup h1 hnd)

theorem rekey_fold_sum {names : List (String × String)}
    (total : List ((String × String) × Nat)) :
    ∀ (acc d : List ((String × String) × RouteVal)),
      total.foldlM (rekeyStep names) acc = some d →
      dsum RouteVal.num_trips d =
        dsum RouteVal.num_trips acc + dsum (fun n => n) total := by
  induction total with
  | nil =>
    intro acc d h
    simp only [List.foldlM_nil] at h
    obtain rfl : acc = d := by simpa using h
    simp [dsum]
  | cons e rest ih =>
    intro acc d h
    rw [List.foldlM_cons] at h
    cases h1 : rekeyStep names acc e with
    | none => simp [h1] at h
    | some acc1 =>
      rw [h1, option_some_bind] at h
      have h2 := ih acc1 d h
      have h3 := rekeyStep_sum h1
      simp only [dsum, List.map_cons, List.sum_cons] at h2 h3 ⊢
      omega

/-- The re-keying loop never raises: when every id appearing in a counted id
pair has a recorded name, the fold succeeds. -/
theorem rekey_fold_isSome {names : List (String × String)}
    (total : List ((String × String) × Nat)) :
    (∀ e ∈ total, (resolvePair names e.1).isSome) →
    ∀ acc, (total.foldlM (rekeyStep names) acc).isSome := by
  induction total with
  | nil => intro _ acc; simp
  | cons e rest ih =>
    intro hres acc
    rw [List.foldlM_cons]
    have h1 := rekeyStep_isSome acc (hres e (by simp))
    obtain ⟨acc1, h2⟩ := Option.isSome_iff_exists.mp h1
    rw [h2, option_some_bind]
    exact ih (fun e2 he2 => hres e2 (by simp [he2])) acc1

/-! ## From id-pair counts to row counts -/

theorem sum_map_add {α : Type} (l : List α) (f g : α → Nat) :
    (l.map (fun x => f x + g x)).sum = (l.map f).sum + (l.map g).sum := by
  induction l with
  | nil => simp
  | cons x rest ih =>
    simp only [List.map_cons, List.sum_cons, ih]
    omega

theorem sum_indicator_unique (names : List (String × String)) (k : String × String)
    {K : List (String × String)} {q : String × String} (hnd : K.Nodup) (hq : q ∈ K) :
    (K.map (fun p => if resolvePair names p = some k ∧ p = q then 1 else 0)).sum
      = if resolvePair names q = some k then 1 else 0 := by
  induction K with
  | nil => cases hq
  | cons p K2 ih =>
    rw [List.map_cons, List.sum_cons]
    rcases List.mem_cons.mp hq with h1 | h1
    · subst h1
      have hnotin : q ∉ K2 := (List.nodup_cons.mp hnd).1
      have hzero :
          (K2.map (fun p => if resolvePair names p = some k ∧ p = q then 1 else 0)).sum
            = 0 := by
        apply List.sum_eq_zero
        intro x hx
        obtain ⟨p2, hp2, rfl⟩ := List.mem_map.mp hx
        have hne : ¬ p2 = q := fun h2 => hnotin (h2 ▸ hp2)
        simp [hne]
      rw [hzero]
      by_cases hc : resolvePair names q = some k
      · simp [hc]
      · simp [hc]
    · have hp : ¬ (p = q) := by
        intro h2
        subst h2
        exact (List.nodup_cons.mp hnd).1 h1
      have hne : ¬ (resolvePair names p = some k ∧ p = q) := fun h2 => hp h2.2
      rw [if_neg hne, ih (List.nodup_cons.mp hnd).2 h1]
      omega

/-- Partitioning the rows by their id pair: summing, over a duplicate-free
cover `K` of the occurring id pairs, the per-id-pair row counts of the pairs
that resolve to `k`, yields the number of rows resolving to `k`. -/
theorem countP_partition (names : List (String × String)) (k : String × String)
    (rows : List TripRow) :
    ∀ (K : List (String × String)), K.Nodup → (∀ r ∈ rows, idPair r ∈ K) →
      (K.map (fun p => if resolvePair names p = some k
          then rows.countP (fun r => decide (idPair r = p)) else 0)).sum
        = rows.countP (fun r => decide (resolvePair names (idPair r) = some k)) := by
  induction rows with
  | nil =>
    intro K hnd hcov
    rw [List.countP_nil]
    apply List.sum_eq_zero
    intro x hx
    obtain ⟨p, hp, rfl⟩ := List.mem_map.mp hx
    simp
  | cons r rest ih =>
    intro K hnd hcov
    have hcov2 : ∀ r2 ∈ rest, idPair r2 ∈ K :=
      fun r2 h => hcov r2 (List.mem_cons_of_mem _ h)
    have hterm : ∀ p ∈ K,
        (if resolvePair names p = some k
          then (r :: rest).countP (fun r2 => decide (idPair r2 = p)) else 0)
        = (if resolvePair names p = some k
            then rest.countP (fun r2 => decide (idPair r2 = p)) else 0)
          + (if resolvePair names p = some k ∧ p = idPair r then 1 else 0) := by
      intro p _
      rw [List.countP_cons]
      by_cases hc : resolvePair names p = some k
      · by_cases hi : idPair r = p
        · simp [hc, hi]
        · have hi2 : ¬ p = idPair r := fun h2 => hi h2.symm
          simp [hc, hi, hi2]
      · simp [hc]
    rw [List.map_congr_left hterm, sum_map_add, ih K hnd hcov2,
      sum_indicator_unique names k hnd (hcov r (List.mem_cons_self r rest)),
      List.countP_cons]
    by_cases hr : resolvePair names (idPair r) = some k
    · simp [hr]
    · simp [hr]

/-! ## Top-level extraction facts -/

theorem resolvePair_isSome {names : List (String × String)} {p : String × String}
    (h1 : (dfind names p.1).isSome) (h2 : (dfind names p.2).isSome) :
    (resolvePair names p).isSome := by
  obtain ⟨a, ha⟩ := Option.isSome_iff_exists.mp h1
  obtain ⟨b, hb⟩ := Option.isSome_iff_exists.mp h2
  simp [resolvePair, ha, hb]

theorem scanTotal_nodup (rows : List TripRow) : (dkeys (scanTotal rows)).Nodup :=
  scan_total_nodup rows ([], []) (by simp [dkeys])

theorem scanTotal_count (rows : List TripRow) (p : String × String) :
    (dfind (scanTotal rows) p).getD 0 = rows.countP (fun r => decide (idPair r = p)) := by
  have h := scan_total_count rows ([], []) p
  simpa [scanTotal, dfind] using h

theorem idPair_mem_scanTotal {rows : List TripRow} {r : TripRow} (h : r ∈ rows) :
    idPair r ∈ dkeys (scanTotal rows) := by
  by_contra hn
  have h0 : dfind (scanTotal rows) (idPair r) = none := (dfind_eq_none_iff _ _).mpr hn
  have h1 := scanTotal_count rows (idPair r)
  rw [h0] at h1
  have h2 : 0 < rows.countP (fun r2 => decide (idPair r2 = idPair r)) :=
    List.countP_pos_iff.mpr ⟨r, h, by simp⟩
  simp at h1
  omega

theorem scanTotal_entry_count {rows : List TripRow} {e : (String × String) × Nat}
    (h : e ∈ scanTotal rows) : e.2 = rows.countP (fun r => decide (idPair r = e.1)) := by
  have h1 : dfind (scanTotal rows) e.1 = some e.2 := by
    have h2 : (e.1, e.2) ∈ scanTotal rows := by simpa using h
    exact dfind_of_mem_nodup (scanTotal_nodup rows) h2
  have h2 := scanTotal_count rows e.1
  rw [h1] at h2
  simpa using h2

/-- The re-keying loop of `extract_from_trip_fact` never hits a missing name:
every id occurring in a counted id pair was given a name by the same row that
first counted it. -/
theorem extract_isSome (rows : List TripRow) : (extract_from_trip_fact rows).isSome := by
  rw [extract_from_trip_fact]
  apply rekey_fold_isSome
  intro e he
  have h1 := scan_covered rows ([], []) (by intro e2 he2; cases he2) e he
  exact resolvePair_isSome h1.1 h1.2

theorem extract_allNone {rows : List TripRow} {d : List ((String × String) × RouteVal)}
    (h : extract_from_trip_fact rows = some d) : ∀ e ∈ d, e.2.route_id = none :=
  rekey_fold_allNone (scanTotal rows) [] d h (by intro e he; cases he)

theorem extract_nodup {rows : List TripRow} {d : List ((String × String) × RouteVal)}
    (h : extract_from_trip_fact rows = some d) : (dkeys d).Nodup :=
  rekey_fold_nodup (scanTotal rows) [] d h (by simp [dkeys])

/-- Master count lemma: the count `extract_from_trip_fact` stores for any
name pair `k` is exactly the number of raw rows whose ids resolve to `k`. -/
theorem extract_lookupTrips {rows : List TripRow}
    {d : List ((String × String) × RouteVal)}
    (h : extract_from_trip_fact rows = some d) (k : String × String) :
    lookupTrips d k = tripsTo rows k := by
  have h1 := rekey_fold_lookupTrips (scanTotal rows) [] d h k
  have h0 : lookupTrips [] k = 0 := rfl
  rw [h0] at h1
  have hcong : ∀ e ∈ scanTotal rows,
      (if resolvePair (scanNames rows) e.1 = some k then e.2 else 0)
      = (if resolvePair (scanNames rows) e.1 = some k
          then rows.countP (fun r => decide (idPair r = e.1)) else 0) := by
    intro e he
    by_cases hc : resolvePair (scanNames rows) e.1 = some k
    · rw [if_pos hc, if_pos hc]
      exact scanTotal_entry_count he
    · rw [if_neg hc, if_neg hc]
  rw [List.map_congr_left hcong] at h1
  have hmap : (scanTotal rows).map (fun e =>
      if resolvePair (scanNames rows) e.1 = some k
        then rows.countP (fun r => decide (idPair r = e.1)) else 0)
      = (dkeys (scanTotal rows)).map (fun p =>
          if resolvePair (scanNames rows) p = some k
            then rows.countP (fun r => decide (idPair r = p)) else 0) := by
    rw [dkeys, List.map_map]
    rfl
  rw [hmap, countP_partition (scanNames rows) k rows (dkeys (scanTotal rows))
    (scanTotal_nodup rows) (fun r hr => idPair_mem_scanTotal hr)] at h1
  rw [h1]
  simp [tripsTo]

theorem scan_total_sum (rows : List TripRow) :
    ∀ st, dsum (fun n => n) ((rows.foldl scanStep st).1) =
      dsum (fun n => n) st.1 + rows.length := by
  induction rows with
  | nil => intro st; simp
  | cons r rest ih =>
    intro st
    rw [List.foldl_cons, ih]
    have hb : dsum (fun n => n) ((scanStep st r).1) = dsum (fun n => n) st.1 + 1 := by
      rw [scanStep_fst]
      cases h0 : dfind st.1 (idPair r) with
      | none =>
        simp only [bumpCount, h0]
        rw [dsum_dinsert_none _ _ h0]
      | some n =>
        simp only [bumpCount, h0]
        have h2 : dsum (fun n => n) (dinsert st.1 (idPair r) (n + 1)) + n =
            dsum (fun n => n) st.1 + (n + 1) := dsum_dinsert_some (fun n => n) (n + 1) h0
        omega
    rw [hb, List.length_cons]
    omega

/-- Count conservation for the full extraction: the stored counts sum to the
number of raw rows. -/
theorem extract_sum {rows : List TripRow} {d : List ((String × String) × RouteVal)}
    (h : extract_from_trip_fact rows = some d) :
    dsum RouteVal.num_trips d = rows.length := by
  have h1 := rekey_fold_sum (scanTotal rows) [] d h
  have h2 := scan_total_sum rows ([], [])
  have h0 : dsum RouteVal.num_trips ([] : List ((String × String) × RouteVal)) = 0 := rfl
  rw [h0] at h1
  have h3 : dsum (fun n => n) (([], []) :
      List ((String × String) × Nat) × List (String × String)).1 = 0 := rfl
  rw [h3] at h2
  rw [h1]
  rw [show scanTotal rows = (rows.foldl scanStep ([], [])).1 from rfl]
  omega

/-! ## Reconciliation lemmas -/

theorem dkeys_reduceStep (tn : List ((String × String) × RouteVal))
    (r : MostUsedRow) : dkeys (reduceStep tn r) = dkeys tn := by
  cases h0 : dfind tn (rowKey r) with
  | none => simp only [reduceStep, h0]
  | some v =>
    simp only [reduceStep, h0]
    exact dkeys_dinsert_some _ h0

theorem dkeys_reduce (persisted : List MostUsedRow) :
    ∀ tn, dkeys (reduceByKey_most_used_routes tn persisted) = dkeys tn := by
  induction persisted with
  | nil => intro tn; rfl
  | cons q rest ih =>
    intro tn
    rw [reduceByKey_most_used_routes, List.foldl_cons]
    rw [show List.foldl reduceStep (reduceStep tn q) rest =
      reduceByKey_most_used_routes (reduceStep tn q) rest from rfl]
    rw [ih, dkeys_reduceStep]

theorem dfind_reduceStep_ne {tn : List ((String × String) × RouteVal)}
    {r : MostUsedRow} {k : String × String} (h : rowKey r ≠ k) :
    dfind (reduceStep tn r) k = dfind tn k := by
  cases h0 : dfind tn (rowKey r) with
  | none => simp only [reduceStep, h0]
  | some v =>
    simp only [reduceStep, h0]
    exact dfind_dinsert_ne _ _ (fun h2 => h h2.symm)

/-- Persisted rows whose key never matches `k` leave the entry at `k` alone. -/
theorem reduce_frame (persisted : List MostUsedRow) :
    ∀ tn k, (∀ r ∈ persisted, rowKey r ≠ k) →
      dfind (reduceByKey_most_used_routes tn persisted) k = dfind tn k := by
  induction persisted with
  | nil => intro tn k _; rfl
  | cons q rest ih =>
    intro tn k hall
    rw [reduceByKey_most_used_routes, List.foldl_cons]
    rw [show List.foldl reduceStep (reduceStep tn q) rest =
      reduceByKey_most_used_routes (reduceStep tn q) rest from rfl]
    rw [ih (reduceStep tn q) k (fun r hr => hall r (List.mem_cons_of_mem _ hr))]
    exact dfind_reduceStep_ne (hall q (List.mem_cons_self q rest))

/-- Provenance of entries after reconciliation: an entry either survived from
the batch mapping untouched, or its `route_id` was copied from a persisted
row with the same key. -/
theorem mem_reduce (persisted : List MostUsedRow) :
    ∀ tn e, e ∈ reduceByKey_most_used_routes tn persisted →
      e ∈ tn ∨ ∃ q ∈ persisted, rowKey q = e.1 ∧ e.2.route_id = some q.route_id := by
  induction persisted with
  | nil => intro tn e he; exact Or.inl he
  | cons q rest ih =>
    intro tn e he
    rw [reduceByKey_most_used_routes, List.foldl_cons] at he
    rcases ih (reduceStep tn q) e he with h1 | ⟨q2, hq2, h2, h3⟩
    · cases h0 : dfind tn (rowKey q) with
      | none =>
        simp only [reduceStep, h0] at h1
        exact Or.inl h1
      | some v =>
        simp only [reduceStep, h0] at h1
        rcases mem_dinsert h1 with h2 | h2
        · exact Or.inl h2
        · refine Or.inr ⟨q, List.mem_cons_self q rest, ?_, ?_⟩
          · rw [h2]
          · rw [h2]
    · exact Or.inr ⟨q2, List.mem_cons_of_mem _ hq2, h2, h3⟩

/-- `route_id` bookkeeping of the reconciliation scan, written from the
spec's words: the last matching persisted row seen so far wins, and the
initial value survives when no row matches. -/
def lastRid (rid0 : Option Nat) (ms : List MostUsedRow) : Option Nat :=
  ms.foldl (fun _ q => some q.route_id) rid0

/-- Full characterisation of a reconciled entry: its `route_id` is the last
matching persisted row's identity (or the initial value when none matches)
and its count is the batch count plus the counts of ALL matching persisted
rows. -/
theorem reduce_entry (persisted : List MostUsedRow) (k : String × String) :
    ∀ tn v, dfind tn k = some v →
      dfind (reduceByKey_most_used_routes tn persisted) k =
        some ⟨lastRid v.route_id (persisted.filter (fun r => decide (rowKey r = k))),
          v.num_trips + ((persisted.filter (fun r => decide (rowKey r = k))).map
            (fun r => r.num_trips)).sum⟩ := by
  induction persisted with
  | nil =>
    intro tn v h
    cases v with
    | mk rid nt => simp [reduceByKey_most_used_routes, lastRid, h]
  | cons q rest ih =>
    intro tn v h
    rw [reduceByKey_most_used_routes, List.foldl_cons]
    rw [show List.foldl reduceStep (reduceStep tn q) rest =
      reduceByKey_most_used_routes (reduceStep tn q) rest from rfl]
    by_cases hk : rowKey q = k
    · have h1 : dfind tn (rowKey q) = some v := by rw [hk]; exact h
      have h2 : dfind (reduceStep tn q) k =
          some ⟨some q.route_id, v.num_trips + q.num_trips⟩ := by
        simp only [reduceStep, h1]
        rw [hk]
        exact dfind_dinsert_self _ _ _
      rw [ih (reduceStep tn q) _ h2]
      rw [List.filter_cons_of_pos (by simp [hk])]
      refine congrArg some ?_
      rw [show lastRid v.route_id (q :: rest.filter (fun r => decide (rowKey r = k)))
        = lastRid (some q.route_id) (rest.filter (fun r => decide (rowKey r = k)))
        from rfl]
      rw [List.map_cons, List.sum_cons, Nat.add_assoc]
    · have h1 : dfind (reduceStep tn q) k = some v := by
        rw [dfind_reduceStep_ne hk]
        exact h
      rw [ih (reduceStep tn q) v h1]
      rw [List.filter_cons_of_neg (by simp [hk])]

/-! ## Mutation-planner lemmas -/

/-- The insert tuple the spec assigns to a mapping entry: `some` exactly when
its `route_identity` is none, carrying (start name, end name, trip count). -/
def insOp (e : (String × String) × RouteVal) : Option (String × String × Nat) :=
  match e.2.route_id with
  | none => some (e.1.1, e.1.2, e.2.num_trips)
  | some _ => none

/-- The update tuple the spec assigns to a mapping entry: `some` exactly when
its `route_identity` is set, carrying (trip count, route identity) — station
names do not appear in an update. -/
def updOp (e : (String × String) × RouteVal) : Option (Nat × Nat) :=
  match e.2.route_id with
  | none => none
  | some rid => some (e.2.num_trips, rid)

theorem modify_fold (tn : List ((String × String) × RouteVal)) :
    ∀ plan0 : MutationPlan, tn.foldl modifyStep plan0 =
      ⟨plan0.insert_array ++ tn.filterMap insOp,
        plan0.update_array ++ tn.filterMap updOp⟩ := by
  induction tn with
  | nil =>
    intro plan0
    cases plan0 with
    | mk ia ua => simp
  | cons e rest ih =>
    intro plan0
    rw [List.foldl_cons]
    cases h : e.2.route_id with
    | none =>
      have hstep : modifyStep plan0 e =
          ⟨plan0.insert_array ++ [(e.1.1, e.1.2, e.2.num_trips)], plan0.update_array⟩ := by
        simp only [modifyStep, h]
      rw [hstep, ih]
      simp [insOp, updOp, h]
    | some rid =>
      have hstep : modifyStep plan0 e =
          ⟨plan0.insert_array, plan0.update_array ++ [(e.2.num_trips, rid)]⟩ := by
        simp only [modifyStep, h]
      rw [hstep, ih]
      simp [insOp, updOp, h]

/-- In the non-insert-only mode the plan is the filter-map partition of the
mapping into insert and update tuples. -/
theorem modify_false_eq (tn : List ((String × String) × RouteVal)) :
    modify_most_used_routes tn false =
      ⟨tn.filterMap insOp, tn.filterMap updOp⟩ := by
  rw [modify_most_used_routes]
  simp only [Bool.false_eq_true, if_false]
  rw [modify_fold]
  simp

/-- Each mapping entry lands in exactly one of the two arrays, so the two
lengths partition the number of keys. -/
theorem filterMap_partition_length (tn : List ((String × String) × RouteVal)) :
    (tn.filterMap insOp).length + (tn.filterMap updOp).length = tn.length := by
  induction tn with
  | nil => simp
  | cons e rest ih =>
    cases h : e.2.route_id with
    | none =>
      rw [List.filterMap_cons, List.filterMap_cons]
      simp only [insOp, updOp, h]
      simp only [List.length_cons]
      omega
    | some rid =>
      rw [List.filterMap_cons, List.filterMap_cons]
      simp only [insOp, updOp, h]
      simp only [List.length_cons]
      omega

theorem sum_map_ite_eq_sum_filter {α : Type} (l : List α) (c : α → Prop)
    [DecidablePred c] (f : α → Nat) :
    (l.map (fun x => if c x then f x else 0)).sum =
      ((l.filter (fun x => decide (c x))).map f).sum := by
  induction l with
  | nil => simp
  | cons x rest ih =>
    by_cases h : c x
    · rw [List.map_cons, List.sum_cons, if_pos h,
        List.filter_cons_of_pos (by simp [h]), List.map_cons, List.sum_cons, ih]
    · rw [List.map_cons, List.sum_cons, if_neg h,
        List.filter_cons_of_neg (by simp [h]), ih]
      omega

/-! ## The claims

The remaining theorems settle the specification claims.  The example inputs
below realise the end-to-end scenario of the spec: three raw trips between
two stations, in both directions. -/

def exampleRows : List TripRow :=
  [⟨"1", "S1", "2", "S2"⟩, ⟨"1", "S1", "2", "S2"⟩, ⟨"2", "S2", "1", "S1"⟩]

def exampleExtract : List ((String × String) × RouteVal) :=
  [(("S1", "S2"), ⟨none, 2⟩), (("S2", "S1"), ⟨none, 1⟩)]

/-- C1: for every raw trip table, the sum of `num_trips` over all entries of
the mapping returned by `extract_from_trip_fact` equals the number of rows
in the raw trip table (count conservation). -/
theorem c1_count_conservation (rows : List TripRow)
    (d : List ((String × String) × RouteVal))
    (h : extract_from_trip_fact rows = some d) :
    dsum RouteVal.num_trips d = rows.length :=
  extract_sum h

theorem c1_count_conservation_witness :
    extract_from_trip_fact exampleRows = some exampleExtract ∧
    dsum RouteVal.num_trips exampleExtract = exampleRows.length :=
  ⟨by decide, c1_count_conservation exampleRows exampleExtract (by decide)⟩

/-- C2: a key present in the mapping with batch count N and matched by
exactly one persisted row (identity R, count P) reconciles to
`num_trips = N + P` with `route_id = R`; a key matched by no persisted row
keeps its entry — in particular `route_id` stays `None`. -/
theorem c2_reconciliation_additive :
    (∀ (tn : List ((String × String) × RouteVal)) (persisted : List MostUsedRow)
        (A B : String) (N P R : Nat) (rid0 : Option Nat),
      persisted.filter (fun r => decide (rowKey r = (A, B))) = [⟨R, A, B, P⟩] →
      dfind tn (A, B) = some ⟨rid0, N⟩ →
      dfind (reduceByKey_most_used_routes tn persisted) (A, B) =
        some ⟨some R, N + P⟩) ∧
    (∀ (tn : List ((String × String) × RouteVal)) (persisted : List MostUsedRow)
        (k : String × String) (N : Nat),
      (∀ r ∈ persisted, rowKey r ≠ k) →
      dfind tn k = some ⟨none, N⟩ →
      dfind (reduceByKey_most_used_routes tn persisted) k = some ⟨none, N⟩) := by
  constructor
  · intro tn persisted A B N P R rid0 hfilter hfind
    have h1 := reduce_entry persisted (A, B) tn ⟨rid0, N⟩ hfind
    rw [hfilter] at h1
    simpa [lastRid] using h1
  · intro tn persisted k N hnone hfind
    rw [reduce_frame persisted tn k hnone, hfind]

theorem c2_reconciliation_additive_witness :
    dfind (reduceByKey_most_used_routes
      [(("A", "B"), ⟨none, 5⟩), (("C", "D"), ⟨none, 1⟩)]
      [⟨7, "A", "B", 10⟩]) ("A", "B") = some ⟨some 7, 15⟩ ∧
    dfind (reduceByKey_most_used_routes
      [(("A", "B"), ⟨none, 5⟩), (("C", "D"), ⟨none, 1⟩)]
      [⟨7, "A", "B", 10⟩]) ("C", "D") = some ⟨none, 1⟩ :=
  ⟨c2_reconciliation_additive.1 _ _ "A" "B" 5 10 7 none (by decide) (by decide),
   c2_reconciliation_additive.2 _ _ ("C", "D") 1 (by decide) (by decide)⟩

/-- C3: with `only_insert` false, the plan partitions exactly the keys of
the mapping: the insert array is the filter-map of the `route_id = None`
entries (carrying names and count), the update array is the filter-map of
the `route_id`-set entries (carrying count and route identity only — no
names, so updates are matched by identity), the two lengths add up to the
number of keys, and each entry contributes its own tuple. -/
theorem c3_modify_partition (tn : List ((String × String) × RouteVal)) :
    (modify_most_used_routes tn false).insert_array = tn.filterMap insOp ∧
    (modify_most_used_routes tn false).update_array = tn.filterMap updOp ∧
    (modify_most_used_routes tn false).insert_array.length +
      (modify_most_used_routes tn false).update_array.length = tn.length ∧
    (∀ e ∈ tn, e.2.route_id = none →
      (e.1.1, e.1.2, e.2.num_trips) ∈ (modify_most_used_routes tn false).insert_array) ∧
    (∀ e ∈ tn, ∀ rid, e.2.route_id = some rid →
      (e.2.num_trips, rid) ∈ (modify_most_used_routes tn false).update_array) := by
  rw [modify_false_eq]
  refine ⟨rfl, rfl, filterMap_partition_length tn, ?_, ?_⟩
  · intro e he hnone
    exact List.mem_filterMap.mpr ⟨e, he, by simp [insOp, hnone]⟩
  · intro e he rid hrid
    exact List.mem_filterMap.mpr ⟨e, he, by simp [updOp, hrid]⟩

theorem c3_modify_partition_witness :
    ((("A", "B"), (⟨none, 3⟩ : RouteVal)) ∈
      [(("A", "B"), (⟨none, 3⟩ : RouteVal)), (("C", "D"), ⟨some 7, 4⟩)]) ∧
    ((("C", "D"), (⟨some 7, 4⟩ : RouteVal)) ∈
      [(("A", "B"), (⟨none, 3⟩ : RouteVal)), (("C", "D"), ⟨some 7, 4⟩)]) ∧
    (("A", "B", 3) ∈ (modify_most_used_routes
      [(("A", "B"), ⟨none, 3⟩), (("C", "D"), ⟨some 7, 4⟩)] false).insert_array) ∧
    ((4, 7) ∈ (modify_most_used_routes
      [(("A", "B"), ⟨none, 3⟩), (("C", "D"), ⟨some 7, 4⟩)] false).update_array) :=
  ⟨by decide, by decide,
   (c3_modify_partition _).2.2.2.1 (("A", "B"), ⟨none, 3⟩) (by decide) (by decide),
   (c3_modify_partition _).2.2.2.2 (("C", "D"), ⟨some 7, 4⟩) (by decide) 7 (by decide)⟩

/-- C4: every name-pair entry of the extraction output was created with
`route_id = None`, and its count is the sum of the id-pair counts whose ids
resolve to that name pair — equivalently, the number of raw trips whose
resolved start/end names equal that key. -/
theorem c4_output_counts (rows : List TripRow)
    (d : List ((String × String) × RouteVal))
    (h : extract_from_trip_fact rows = some d) :
    ∀ e ∈ d, e.2.route_id = none ∧
      e.2.num_trips = (((scanTotal rows).filter
        (fun t => decide (resolvePair (scanNames rows) t.1 = some e.1))).map
          (fun t => t.2)).sum ∧
      e.2.num_trips = tripsTo rows e.1 := by
  intro e he
  have hfind : dfind d e.1 = some e.2 :=
    dfind_of_mem_nodup (extract_nodup h) he
  have hnum := extract_lookupTrips h e.1
  rw [lookupTrips_of_some hfind] at hnum
  refine ⟨extract_allNone h e he, ?_, hnum⟩
  have h1 := rekey_fold_lookupTrips (scanTotal rows) [] d h e.1
  rw [lookupTrips_of_some hfind] at h1
  rw [h1]
  have h0 : lookupTrips [] e.1 = 0 := rfl
  rw [h0, Nat.zero_add, sum_map_ite_eq_sum_filter]

theorem c4_output_counts_witness :
    extract_from_trip_fact exampleRows = some exampleExtract ∧
    ((("S1", "S2"), (⟨none, 2⟩ : RouteVal)) ∈ exampleExtract) ∧
    ((⟨none, 2⟩ : RouteVal).route_id = none ∧
      (⟨none, 2⟩ : RouteVal).num_trips = (((scanTotal exampleRows).filter
        (fun t => decide (resolvePair (scanNames exampleRows) t.1 =
          some (("S1", "S2"), (⟨none, 2⟩ : RouteVal)).1))).map
          (fun t => t.2)).sum ∧
      (⟨none, 2⟩ : RouteVal).num_trips =
        tripsTo exampleRows (("S1", "S2"), (⟨none, 2⟩ : RouteVal)).1) :=
  ⟨by decide, by decide,
   c4_output_counts exampleRows exampleExtract (by decide)
     (("S1", "S2"), ⟨none, 2⟩) (by decide)⟩

/-- C5: the id→name table built by the scan maps every station id to the
name carried by the first row in scan order that mentions the id (the start
column of a row being examined before its end column); later differing names
for the same id are ignored, and ids mentioned by no row are absent. -/
theorem c5_first_name_wins (rows : List TripRow) (sid : String) :
    dfind (scanNames rows) sid = firstNameSpec rows sid :=
  scan_names_of_none rows ([], []) rfl

/-- C6: with `only_insert` true the plan inserts one row per key — carrying
start name, end name and count — in mapping order, emits no updates, and is
unchanged under any rewriting of the `route_id` fields. -/
theorem c6_insert_only (tn : List ((String × String) × RouteVal)) :
    (modify_most_used_routes tn true).insert_array =
      tn.map (fun e => (e.1.1, e.1.2, e.2.num_trips)) ∧
    (modify_most_used_routes tn true).insert_array.length = tn.length ∧
    (modify_most_used_routes tn true).update_array = [] ∧
    ∀ f : RouteVal → Option Nat,
      modify_most_used_routes
        (tn.map (fun e => (e.1, (⟨f e.2, e.2.num_trips⟩ : RouteVal)))) true =
        modify_most_used_routes tn true := by
  refine ⟨rfl, ?_, rfl, ?_⟩
  · show (tn.map (fun e => (e.1.1, e.1.2, e.2.num_trips))).length = tn.length
    rw [List.length_map]
  · intro f
    show (⟨(tn.map (fun e => (e.1, (⟨f e.2, e.2.num_trips⟩ : RouteVal)))).map
        (fun e => (e.1.1, e.1.2, e.2.num_trips)), []⟩ : MutationPlan) =
      ⟨tn.map (fun e => (e.1.1, e.1.2, e.2.num_trips)), []⟩
    rw [List.map_map]
    rfl

/-- C7: a persisted pair absent from the current batch's mapping is left
untouched — reconciliation adds no entry for it (the mapping's keys are
unchanged), no emitted insert carries its name pair, and no emitted update
carries its route identity; the plan has no delete array at all. -/
theorem c7_absent_pair_untouched (tn : List ((String × String) × RouteVal))
    (persisted : List MostUsedRow) (r : MostUsedRow) (k : String × String)
    (hnone : ∀ e ∈ tn, e.2.route_id = none)
    (hnd : (persisted.map (fun q => q.route_id)).Nodup)
    (hr : r ∈ persisted) (hk : rowKey r = k) (habs : dfind tn k = none) :
    dfind (reduceByKey_most_used_routes tn persisted) k = none ∧
    (∀ ins ∈ (modify_most_used_routes
        (reduceByKey_most_used_routes tn persisted) false).insert_array,
      (ins.1, ins.2.1) ≠ k) ∧
    (∀ upd ∈ (modify_most_used_routes
        (reduceByKey_most_used_routes tn persisted) false).update_array,
      upd.2 ≠ r.route_id) := by
  have hkeys : k ∉ dkeys tn := (dfind_eq_none_iff tn k).mp habs
  have hkeys2 : k ∉ dkeys (reduceByKey_most_used_routes tn persisted) := by
    rw [dkeys_reduce]
    exact hkeys
  refine ⟨(dfind_eq_none_iff _ k).mpr hkeys2, ?_, ?_⟩
  · intro ins hins
    rw [modify_false_eq] at hins
    obtain ⟨e, he, hop⟩ := List.mem_filterMap.mp hins
    cases h0 : e.2.route_id with
    | none =>
      simp only [insOp, h0] at hop
      obtain rfl : (e.1.1, e.1.2, e.2.num_trips) = ins := Option.some_inj.mp hop
      intro hcon
      apply hkeys2
      have he1 : e.1 = k := by
        rw [← hcon]
      rw [← he1]
      exact List.mem_map_of_mem Prod.fst he
    | some rid =>
      simp only [insOp, h0] at hop
      exact Option.noConfusion hop
  · intro upd hupd
    rw [modify_false_eq] at hupd
    obtain ⟨e, he, hop⟩ := List.mem_filterMap.mp hupd
    cases h0 : e.2.route_id with
    | none =>
      simp only [updOp, h0] at hop
      exact Option.noConfusion hop
    | some rid =>
      simp only [updOp, h0] at hop
      obtain rfl : (e.2.num_trips, rid) = upd := Option.some_inj.mp hop
      rcases mem_reduce persisted tn e he with h1 | ⟨q, hq, hqk, hqr⟩
      · rw [hnone e h1] at h0
        cases h0
      · intro hcon
        have hrid : rid = q.route_id := Option.some_inj.mp (h0.symm.trans hqr)
        have hcon2 : q.route_id = r.route_id := by
          rw [← hrid]
          exact hcon
        have hqr2 : q = r := List.inj_on_of_nodup_map hnd hq hr hcon2
        apply hkeys2
        rw [← hk, ← hqr2, hqk]
        exact List.mem_map_of_mem Prod.fst he

theorem c7_absent_pair_untouched_witness :
    dfind (reduceByKey_most_used_routes
      [(("C", "D"), ⟨none, 1⟩)] [⟨7, "A", "B", 10⟩]) ("A", "B") = none ∧
    (∀ ins ∈ (modify_most_used_routes (reduceByKey_most_used_routes
        [(("C", "D"), ⟨none, 1⟩)] [⟨7, "A", "B", 10⟩]) false).insert_array,
      (ins.1, ins.2.1) ≠ ("A", "B")) ∧
    (∀ upd ∈ (modify_most_used_routes (reduceByKey_most_used_routes
        [(("C", "D"), ⟨none, 1⟩)] [⟨7, "A", "B", 10⟩]) false).update_array,
      upd.2 ≠ (⟨7, "A", "B", 10⟩ : MostUsedRow).route_id) :=
  c7_absent_pair_untouched [(("C", "D"), ⟨none, 1⟩)] [⟨7, "A", "B", 10⟩]
    ⟨7, "A", "B", 10⟩ ("A", "B") (by decide) (by decide) (by decide) (by decide)
    (by decide)

/-- C8 counterexample: with batch count 5 for ("A","B") and two persisted
rows for the same key — (identity 1, count 10) then (identity 2, count 7) —
the reconciled entry is ⟨identity 2, 22⟩: the last identity wins, but the
count is 5 + 10 + 7, not the last-seen persisted count 7 (nor 5 + 7), so the
entry does NOT hold the last-seen row's count. -/
theorem c8_last_wins_counterexample :
    dfind (reduceByKey_most_used_routes [(("A", "B"), ⟨none, 5⟩)]
      [⟨1, "A", "B", 10⟩, ⟨2, "A", "B", 7⟩]) ("A", "B") = some ⟨some 2, 22⟩ ∧
    ¬ (22 = 5 + 7) ∧ ¬ (22 = 7) := by
  refine ⟨by decide, by decide, by decide⟩

/-- C8 amended: if the same key appears more than once in the persisted
table, the last-seen row's identity wins for `route_id`, while `num_trips`
becomes the batch count plus the sum of the counts of ALL matching persisted
rows (each matching row's count is added, not only the last one's). -/
theorem c8_duplicate_keys_last_identity_summed_counts
    (tn : List ((String × String) × RouteVal)) (persisted : List MostUsedRow)
    (k : String × String) (v : RouteVal) (h : dfind tn k = some v) :
    dfind (reduceByKey_most_used_routes tn persisted) k =
      some ⟨lastRid v.route_id (persisted.filter (fun r => decide (rowKey r = k))),
        v.num_trips + ((persisted.filter (fun r => decide (rowKey r = k))).map
          (fun r => r.num_trips)).sum⟩ :=
  reduce_entry persisted k tn v h

theorem c8_duplicate_keys_witness :
    dfind [(("A", "B"), (⟨none, 5⟩ : RouteVal))] ("A", "B") = some ⟨none, 5⟩ ∧
    dfind (reduceByKey_most_used_routes [(("A", "B"), ⟨none, 5⟩)]
      [⟨1, "A", "B", 10⟩, ⟨2, "A", "B", 7⟩]) ("A", "B") =
      some ⟨lastRid (⟨none, 5⟩ : RouteVal).route_id
        ([⟨1, "A", "B", 10⟩, (⟨2, "A", "B", 7⟩ : MostUsedRow)].filter
          (fun r => decide (rowKey r = ("A", "B")))),
        (⟨none, 5⟩ : RouteVal).num_trips +
          (([⟨1, "A", "B", 10⟩, (⟨2, "A", "B", 7⟩ : MostUsedRow)].filter
            (fun r => decide (rowKey r = ("A", "B")))).map
              (fun r => r.num_trips)).sum⟩ :=
  ⟨by decide, c8_duplicate_keys_last_identity_summed_counts
    [(("A", "B"), ⟨none, 5⟩)] [⟨1, "A", "B", 10⟩, ⟨2, "A", "B", 7⟩]
    ("A", "B") ⟨none, 5⟩ (by decide)⟩

/-- C9: station-pair keys are ordered: when A ≠ B, the counts stored for
(A,B) and (B,A) are independent — each equals the number of raw rows
resolving to exactly that ordered pair, and no row resolves to both. -/
theorem c9_ordered_pairs (rows : List TripRow)
    (d : List ((String × String) × RouteVal)) (A B : String)
    (h : extract_from_trip_fact rows = some d) (hne : A ≠ B) :
    lookupTrips d (A, B) = tripsTo rows (A, B) ∧
    lookupTrips d (B, A) = tripsTo rows (B, A) ∧
    ∀ r ∈ rows, ¬ (resolvePair (scanNames rows) (idPair r) = some (A, B) ∧
      resolvePair (scanNames rows) (idPair r) = some (B, A)) := by
  refine ⟨extract_lookupTrips h (A, B), extract_lookupTrips h (B, A), ?_⟩
  intro r _ hboth
  obtain ⟨h1, h2⟩ := hboth
  rw [h1] at h2
  have h3 : (A, B) = (B, A) := Option.some_inj.mp h2
  exact hne (congrArg Prod.fst h3)

theorem c9_ordered_pairs_witness :
    extract_from_trip_fact exampleRows = some exampleExtract ∧
    ("S1" : String) ≠ "S2" ∧
    (lookupTrips exampleExtract ("S1", "S2") = tripsTo exampleRows ("S1", "S2") ∧
      lookupTrips exampleExtract ("S2", "S1") = tripsTo exampleRows ("S2", "S1") ∧
      ∀ r ∈ exampleRows,
        ¬ (resolvePair (scanNames exampleRows) (idPair r) = some ("S1", "S2") ∧
          resolvePair (scanNames exampleRows) (idPair r) = some ("S2", "S1"))) :=
  ⟨by decide, by decide,
   c9_ordered_pairs exampleRows exampleExtract "S1" "S2" (by decide) (by decide)⟩

/-- C10: at the start of the re-keying loop every station id occurring in a
key of the id-pair count dictionary has an entry in the id→name dictionary,
so the name lookups of the re-keying step never fail and
`extract_from_trip_fact` always returns a mapping. -/
theorem c10_rekey_total (rows : List TripRow) :
    (∀ e ∈ scanTotal rows, (dfind (scanNames rows) e.1.1).isSome ∧
      (dfind (scanNames rows) e.1.2).isSome) ∧
    (extract_from_trip_fact rows).isSome := by
  constructor
  · intro e he
    exact scan_covered rows ([], []) (by intro e2 he2; cases he2) e he
  · exact extract_isSome rows

theorem c10_rekey_total_witness :
    ((("1", "2"), 2) ∈ scanTotal exampleRows) ∧
    ((dfind (scanNames exampleRows) ("1")).isSome ∧
      (dfind (scanNames exampleRows) ("2")).isSome) ∧
    (extract_from_trip_fact exampleRows).isSome :=
  ⟨by decide, (c10_rekey_total exampleRows).1 (("1", "2"), 2) (by decide),
   (c10_rekey_total exampleRows).2⟩
